import Mathlib

/-!
Shallow embedding of the spatio-temporal graph reasoning engine of
`src/models/livesal.py` (classes `ConvGRU`, `GraphProcessor`, and the
output stage of `LiveSAL`), over the real numbers.

A feature map of PyTorch shape `(C, H, W)` is a function
`Fin C → Fin H → Fin W → ℝ`; a batched tensor `(B, C, H, W)` adds a
leading `Fin B`.  All tensor operations of the source (convolution,
sigmoid, tanh, softmax, batched matrix product, layer normalization)
are translated elementwise; PyTorch's `view(B, C, -1)` flattening of
the two spatial dimensions is represented by indexing spatial
positions with the pair type `Fin H × Fin W` (the row-major bijection
between `Fin (H*W)` and `Fin H × Fin W`), which is exact because every
flattened operation in the source (softmax over positions, batched
matrix contraction over positions) is indexed pointwise by positions.

Value-level semantics is exact real arithmetic; the shape-level
semantics of the same code (PyTorch size propagation, broadcasting and
error behaviour) is embedded separately further below as computable
functions on `List ℕ` shapes.
-/

namespace LiveSALSpec

/-- Per-batch-element feature map of PyTorch shape `(C, H, W)`. -/
abbrev Ten (C H W : ℕ) : Type := Fin C → Fin H → Fin W → ℝ

/-- Batched tensor of PyTorch shape `(B, C, H, W)`. -/
abbrev BTen (B C H W : ℕ) : Type := Fin B → Ten C H W

/-- `torch.sigmoid x = 1 / (1 + exp (-x))` (`nn.Sigmoid`). -/
noncomputable def sigmoid (x : ℝ) : ℝ := 1 / (1 + Real.exp (-x))

/-- Softmax over an arbitrary finite index type (PyTorch `softmax` over
the flattened dimension being softened). -/
noncomputable def softmax {ι : Type} [Fintype ι] (f : ι → ℝ) (q : ι) : ℝ :=
  Real.exp (f q) / ∑ p : ι, Real.exp (f p)

/-- Zero-padded read of a feature map at integer coordinates: PyTorch
convolution padding semantics (values outside the map are 0). -/
def padGet {C H W : ℕ} (x : Ten C H W) (c : Fin C) (i j : ℤ) : ℝ :=
  if h : 0 ≤ i ∧ i < (H : ℤ) ∧ 0 ≤ j ∧ j < (W : ℤ) then
    x c ⟨i.toNat, by omega⟩ ⟨j.toNat, by omega⟩
  else 0

/-- `nn.Conv2d(Ci, Co, kernel_size=1, padding=0)` on one batch element:
pointwise channel mixing plus bias. -/
def conv1x1 {Ci Co H W : ℕ} (w : Fin Co → Fin Ci → ℝ) (b : Fin Co → ℝ)
    (x : Ten Ci H W) : Ten Co H W :=
  fun c i j => (∑ c' : Fin Ci, w c c' * x c' i j) + b c

/-- `nn.Conv2d(Ci, Co, kernel_size=3, padding=1)` on one batch element
(cross-correlation with zero padding, PyTorch semantics). -/
def conv3x3 {Ci Co H W : ℕ} (w : Fin Co → Fin Ci → Fin 3 → Fin 3 → ℝ)
    (b : Fin Co → ℝ) (x : Ten Ci H W) : Ten Co H W :=
  fun c i j =>
    (∑ c' : Fin Ci, ∑ a : Fin 3, ∑ d : Fin 3,
      w c c' a d * padGet x c' ((i : ℤ) + (a : ℤ) - 1) ((j : ℤ) + (d : ℤ) - 1)) + b c

/-- `torch.cat([x, y], dim=1)` on one batch element: channel
concatenation, first block `x`, second block `y`. -/
def catCh {C₁ C₂ H W : ℕ} (x : Ten C₁ H W) (y : Ten C₂ H W) : Ten (C₁ + C₂) H W :=
  fun c => Fin.addCases (fun c₁ => x c₁) (fun c₂ => y c₂) c

/-- Learned parameters of `ConvGRU` (`livesal.py` lines 11-40):
`conv_zr : Conv2d(2C, 2C, 3, padding=1)` and
`conv_h : Conv2d(2C, C, 3, padding=1)`, both with bias. -/
structure GRUParams (C : ℕ) where
  convZrW : Fin (C + C) → Fin (C + C) → Fin 3 → Fin 3 → ℝ
  convZrB : Fin (C + C) → ℝ
  convHW : Fin C → Fin (C + C) → Fin 3 → Fin 3 → ℝ
  convHB : Fin C → ℝ

/-- The `zr = sigmoid(conv_zr(cat [x, h]))` tensor of `ConvGRU.forward`
(lines 43-46), on one batch element. -/
noncomputable def gruZR {C H W : ℕ} (p : GRUParams C) (x h : Ten C H W) :
    Ten (C + C) H W :=
  fun c i j => sigmoid (conv3x3 p.convZrW p.convZrB (catCh x h) c i j)

/-- Update gate `z`: first `C` channels of `zr`
(`z, r = torch.split(zr, C, dim=1)`, line 47). -/
noncomputable def gruZ {C H W : ℕ} (p : GRUParams C) (x h : Ten C H W) :
    Ten C H W :=
  fun c => gruZR p x h (Fin.castAdd C c)

/-- Reset gate `r`: last `C` channels of `zr` (line 47). -/
noncomputable def gruR {C H W : ℕ} (p : GRUParams C) (x h : Ten C H W) :
    Ten C H W :=
  fun c => gruZR p x h (Fin.natAdd C c)

/-- Candidate state `h_hat = tanh(conv_h(cat [x, r * h]))`
(lines 50-51), on one batch element. -/
noncomputable def gruHhat {C H W : ℕ} (p : GRUParams C) (x h : Ten C H W) :
    Ten C H W :=
  fun c i j =>
    Real.tanh (conv3x3 p.convHW p.convHB
      (catCh x (fun c' i' j' => gruR p x h c' i' j' * h c' i' j')) c i j)

/-- `ConvGRU.forward` (lines 42-56) on one batch element:
`h_new = (1 - z) * h + z * h_hat`. -/
noncomputable def convGRU {C H W : ℕ} (p : GRUParams C) (x h : Ten C H W) :
    Ten C H W :=
  fun c i j =>
    (1 - gruZ p x h c i j) * h c i j + gruZ p x h c i j * gruHhat p x h c i j

/-- Batched `ConvGRU.forward`: PyTorch applies the cell independently to
every batch element. -/
noncomputable def convGRUB {B C H W : ℕ} (p : GRUParams C) (x h : BTen B C H W) :
    BTen B C H W :=
  fun b => convGRU p (x b) (h b)

/-- Learned parameters of `GraphProcessor` (`livesal.py` lines 59-126).
The three intra-attention projections are `Conv2d(C, C, 1)` with bias;
`inter_message_edge_conv` is `Conv2d(C + 1, C, 1)` with bias (the extra
input channel carries the edge feature); `inter_weight` is
`Linear(C, C, bias=False)`; `weight` is the scalar fusion parameter
(initialized to `0.5`, line 103); `inter_gate_conv` is
`Conv2d(C, C, 1)` with bias followed by `AdaptiveAvgPool2d(1)` and
`Sigmoid`; `norm` is `LayerNorm([C, 11, 11])` with elementwise affine
weight and bias — the source hardcodes the spatial size 11×11 (line
124-126, with a TODO noting the hardcoding), so the affine parameters
are indexed here by the generic `H`, `W` of the embedding and the
hardcoded-size constraint is captured by the shape-level semantics. -/
structure GPParams (C H W : ℕ) where
  intraKeyW : Fin C → Fin C → ℝ
  intraKeyB : Fin C → ℝ
  intraQueryW : Fin C → Fin C → ℝ
  intraQueryB : Fin C → ℝ
  intraValueW : Fin C → Fin C → ℝ
  intraValueB : Fin C → ℝ
  intraAlpha : ℝ
  interMsgW : Fin C → Fin (C + 1) → ℝ
  interMsgB : Fin C → ℝ
  interWeightW : Fin C → Fin C → ℝ
  weight : ℝ
  interGateW : Fin C → Fin C → ℝ
  interGateB : Fin C → ℝ
  gru : GRUParams C
  normW : Fin C → Fin H → Fin W → ℝ
  normB : Fin C → Fin H → Fin W → ℝ
  nIterations : ℕ

/-- `self.scale = hidden_channels ** -0.5` (line 69). -/
noncomputable def gpScale (C : ℕ) : ℝ := (C : ℝ) ^ (-(1 / 2 : ℝ))

/-- The initial value of the scalar fusion parameter:
`self.weight = nn.Parameter(torch.tensor(0.5))` (line 103). -/
noncomputable def gpInitWeight : ℝ := 0.5

/-- `nn.LayerNorm([C, H, W])` on one batch element, PyTorch semantics:
normalize over the whole `(C, H, W)` volume using the biased variance,
then apply the elementwise affine transform; `eps = 1e-5` (default). -/
noncomputable def layerNorm {C H W : ℕ} (γ β : Ten C H W) (x : Ten C H W) :
    Ten C H W :=
  let n : ℝ := (C : ℝ) * (H : ℝ) * (W : ℝ)
  let μ : ℝ := (∑ c : Fin C, ∑ i : Fin H, ∑ j : Fin W, x c i j) / n
  let v : ℝ := (∑ c : Fin C, ∑ i : Fin H, ∑ j : Fin W, (x c i j - μ) ^ 2) / n
  fun c i j => (x c i j - μ) / Real.sqrt (v + 1e-5) * γ c i j + β c i j

/-- `GraphProcessor._compute_edge_features` (lines 128-140): a constant
`(B, 1, H, W)` map filled with the float of the signed index offset
`i - j`; here given as the scalar it broadcasts. -/
def edgeFeature (i j : ℕ) : ℝ := ((i : ℤ) - (j : ℤ) : ℤ)

/-- `GraphProcessor._compute_intra_attention` (lines 142-156) on one
batch element.  `query/key/value` are 1×1 convolutions; spatial
positions are flattened (`view(B, C, -1)`, modelled by the pair index
`Fin H × Fin W`); `attention = softmax(queryᵀ·key · scale, dim=-1)`;
`output = attention·valueᵀ` reshaped back, and finally
`intra_alpha * output + x`. -/
noncomputable def intraAttention {C H W : ℕ} (p : GPParams C H W)
    (x : Ten C H W) : Ten C H W :=
  let query := conv1x1 p.intraQueryW p.intraQueryB x
  let key := conv1x1 p.intraKeyW p.intraKeyB x
  let value := conv1x1 p.intraValueW p.intraValueB x
  let logits : (Fin H × Fin W) → (Fin H × Fin W) → ℝ := fun pq q =>
    (∑ c : Fin C, query c pq.1 pq.2 * key c q.1 q.2) * gpScale C
  fun c i j =>
    p.intraAlpha *
      (∑ q : Fin H × Fin W, softmax (logits (i, j)) q * value c q.1 q.2) +
    x c i j

/-- The transformed neighbor features inside
`GraphProcessor._compute_inter_attention` (lines 167-174): concatenate
neighbor `y` with the edge feature channel, apply
`inter_message_edge_conv` (1×1), then `inter_weight` (a `Linear` acting
on the channel dimension at every spatial position). -/
def interTransformed {C H W : ℕ} (p : GPParams C H W) (i j : ℕ)
    (y : Ten C H W) : Ten C H W :=
  let y₁ := conv1x1 p.interMsgW p.interMsgB
    (catCh y (fun _ _ _ => edgeFeature i j) : Ten (C + 1) H W)
  fun c pi pj => ∑ c' : Fin C, p.interWeightW c c' * y₁ c' pi pj

/-- One neighbor's message (lines 176-183): attention logits
`e = xᵀ·y`, softmax over the neighbor's spatial positions, then the
attention-weighted sum of the transformed neighbor features. -/
noncomputable def interMessage {C H W : ℕ} (p : GPParams C H W) (i j : ℕ)
    (x y : Ten C H W) : Ten C H W :=
  let y₂ := interTransformed p i j y
  let logits : (Fin H × Fin W) → (Fin H × Fin W) → ℝ := fun pq q =>
    ∑ c : Fin C, x c pq.1 pq.2 * y₂ c q.1 q.2
  fun c pi pj =>
    ∑ q : Fin H × Fin W, softmax (logits (pi, pj)) q * y₂ c q.1 q.2

/-- One neighbor's gate (line 184): `inter_gate_conv` = 1×1 convolution,
global average pool, sigmoid; one value per channel. -/
noncomputable def interGate {C H W : ℕ} (p : GPParams C H W)
    (m : Ten C H W) : Fin C → ℝ :=
  fun c =>
    sigmoid ((∑ i : Fin H, ∑ j : Fin W,
      conv1x1 p.interGateW p.interGateB m c i j) / ((H : ℝ) * (W : ℝ)))

/-- `GraphProcessor._compute_inter_attention` (lines 158-197) on one
batch element: sum of gated messages over the neighbor list; with an
empty neighbor list the source returns `torch.zeros_like(x)` — zero
values (the fact that the source takes `zeros_like` of the *flattened*
view of `x`, so that the zero tensor has shape `(B, C, H*W)`, is a
shape-level fact captured by the shape semantics below). -/
noncomputable def interAttention {C H W : ℕ} (p : GPParams C H W) (i : ℕ)
    (x : Ten C H W) (neighbors : List (ℕ × Ten C H W)) : Ten C H W :=
  fun c pi pj =>
    ((neighbors.map (fun jy =>
      fun (c : Fin C) (pi : Fin H) (pj : Fin W) =>
        interMessage p i jy.1 x jy.2 c pi pj *
          interGate p (interMessage p i jy.1 x jy.2) c)).foldr
      (fun t acc => fun c pi pj => t c pi pj + acc c pi pj)
      (fun _ _ _ => 0)) c pi pj

/-- The per-node fused message of `GraphProcessor.forward`
(lines 209-211): `combined = weight * intra + (1 - weight) * inter`,
with `weight` the raw scalar parameter of line 103. -/
def gpCombined {B C H W : ℕ} (p : GPParams C H W)
    (intra inter : BTen B C H W) : BTen B C H W :=
  fun b c i j => p.weight * intra b c i j + (1 - p.weight) * inter b c i j

/-- The neighbor index list of `GraphProcessor.forward` (line 207):
`[j for j in range(L) if abs(i - j) == 1]`. -/
def gpNeighborIdx (L i : ℕ) : List ℕ :=
  (List.range L).filter (fun j => ((i : ℤ) - (j : ℤ)).natAbs = 1)

/-- The same neighbor filter over `Fin L`, as used to read the state
snapshot `h[j]` in the list comprehension of line 207. -/
def gpNeighborFin (L : ℕ) (i : Fin L) : List (Fin L) :=
  (List.finRange L).filter (fun j => ((i : ℤ) - (j : ℤ)).natAbs = 1)

/-- Iteration state of `GraphProcessor.forward`: one `(B, C, H, W)`
tensor per node of the length-`L` temporal chain. -/
abbrev GPState (L B C H W : ℕ) : Type := Fin L → BTen B C H W

/-- The round-`k` update of a single node `i` (loop body of
`GraphProcessor.forward`, lines 204-216), reading only the round-`(k-1)`
snapshot `h`: intra-frame attention on `h[i]`, inter-frame messages from
the neighbors `{j : |i-j| = 1}` read from `h`, fusion, `ConvGRU` update
with hidden state `h[i]`, residual add, layer normalization. -/
noncomputable def gpNodeUpdate {L B C H W : ℕ} (p : GPParams C H W)
    (h : GPState L B C H W) (i : Fin L) : BTen B C H W :=
  let intra : BTen B C H W := fun b => intraAttention p (h i b)
  let inter : BTen B C H W := fun b =>
    interAttention p i (h i b)
      ((gpNeighborFin L i).map (fun j => (j.val, h j b)))
  let combined := gpCombined p intra inter
  let next := convGRUB p.gru combined (h i)
  fun b => layerNorm p.normW p.normB
    (fun c pi pj => next b c pi pj + h i b c pi pj)

/-- One full round of `GraphProcessor.forward`: all `L` node updates are
computed from the same snapshot `h` (the Python loop appends each
`next_h` to the fresh list `new_h` and only afterwards stacks it into
the new state). -/
noncomputable def gpRound {L B C H W : ℕ} (p : GPParams C H W)
    (h : GPState L B C H W) : GPState L B C H W :=
  fun i => gpNodeUpdate p h i

/-- `GraphProcessor.forward` (lines 199-220) with an explicit iteration
count: `h = x`, then `n` rounds of synchronous node updates. -/
noncomputable def gpForwardN {L B C H W : ℕ} (p : GPParams C H W) :
    ℕ → GPState L B C H W → GPState L B C H W
  | 0, h => h
  | n + 1, h => gpForwardN p n (gpRound p h)

/-- `GraphProcessor.forward` proper: runs `self.n_iterations` rounds. -/
noncomputable def gpForward {L B C H W : ℕ} (p : GPParams C H W)
    (x : GPState L B C H W) : GPState L B C H W :=
  gpForwardN p p.nIterations x

section Lemmas

lemma sigmoid_pos (x : ℝ) : 0 < sigmoid x := by
  unfold sigmoid
  positivity

lemma sigmoid_lt_one (x : ℝ) : sigmoid x < 1 := by
  unfold sigmoid
  rw [div_lt_one (by positivity)]
  have := Real.exp_pos (-x)
  linarith

lemma sigmoid_zero : sigmoid 0 = 1 / 2 := by
  unfold sigmoid
  rw [neg_zero, Real.exp_zero]
  norm_num

end Lemmas

/-- The neighbor set described by the spec's words: every other node
within the configurable radius `R` in index distance
(`|i - j| ≤ R`, `i ≠ j`). -/
def specNeighborIdx (R L i : ℕ) : List ℕ :=
  (List.range L).filter
    (fun j => ((i : ℤ) - (j : ℤ)).natAbs ≤ R ∧ j ≠ i)

section ClaimC1

/-- All-zero `ConvGRU` parameters at channel width 2 (for witnesses). -/
def c1Gru : GRUParams 2 where
  convZrW := fun _ _ _ _ => 0
  convZrB := fun _ => 0
  convHW := fun _ _ _ _ => 0
  convHB := fun _ => 0

/-- All-zero `GraphProcessor` parameters at `C = H = W = 2` (for
witnesses). -/
def c1Params : GPParams 2 2 2 where
  intraKeyW := fun _ _ => 0
  intraKeyB := fun _ => 0
  intraQueryW := fun _ _ => 0
  intraQueryB := fun _ => 0
  intraValueW := fun _ _ => 0
  intraValueB := fun _ => 0
  intraAlpha := 0
  interMsgW := fun _ _ => 0
  interMsgB := fun _ => 0
  interWeightW := fun _ _ => 0
  weight := 0
  interGateW := fun _ _ => 0
  interGateB := fun _ => 0
  gru := c1Gru
  normW := fun _ _ _ => 0
  normB := fun _ _ _ => 0
  nIterations := 1

/-- A concrete all-zero 5-node state. -/
def c1State₁ : GPState 5 1 2 2 2 := fun _ _ _ _ _ => 0

/-- A concrete 5-node state agreeing with `c1State₁` on nodes 0 and 1
but differing at nodes 2, 3, 4. -/
def c1State₂ : GPState 5 1 2 2 2 :=
  fun n _ _ _ _ => if (n : ℕ) < 2 then 0 else 1

/-- C1: in `GraphProcessor.forward`, every round's `L` node updates are
computed from the single frozen snapshot of the previous round's
states: the forward loop is the `n`-fold iterate of the synchronous
round map `gpRound`, and a node's update under `gpRound` depends only
on the snapshot values at indices within distance 1 of that node (its
own state — intra-attention and ConvGRU hidden input — and its
neighbors' states), never on another node's current-round value. -/
theorem C1_synchronous_jacobi_update {L B C H W : ℕ} (p : GPParams C H W)
    (n : ℕ) (x : GPState L B C H W) (h₁ h₂ : GPState L B C H W) (i : Fin L)
    (hagree : ∀ j : Fin L, ((i : ℤ) - (j : ℤ)).natAbs ≤ 1 → h₁ j = h₂ j) :
    gpForwardN p n x = (gpRound p)^[n] x ∧ gpRound p h₁ i = gpRound p h₂ i := by
  constructor
  · induction n generalizing x with
    | zero => rfl
    | succ n ih =>
      rw [gpForwardN, ih, ← Function.iterate_succ_apply]
  · have hi : h₁ i = h₂ i := hagree i (by simp)
    have hlist : ∀ b, (gpNeighborFin L i).map (fun j => (j.val, h₁ j b)) =
        (gpNeighborFin L i).map (fun j => (j.val, h₂ j b)) := by
      intro b
      apply List.map_congr_left
      intro j hj
      have hmem := List.mem_filter.mp hj
      have h1 : ((i : ℤ) - (j : ℤ)).natAbs = 1 := by simpa using hmem.2
      rw [hagree j (by omega)]
    show gpNodeUpdate p h₁ i = gpNodeUpdate p h₂ i
    unfold gpNodeUpdate
    simp only [hi, hlist]

/-- Witness for C1 at concrete sizes: `L = 5`, one round, with two
snapshots that agree on indices 0 and 1 (distance ≤ 1 from node 0) but
differ at the far node 3. -/
theorem C1_synchronous_jacobi_update_witness :
    gpForwardN (L := 5) (B := 1) c1Params 1 c1State₁ =
      (gpRound c1Params)^[1] c1State₁ ∧
    gpRound c1Params c1State₁ 0 = gpRound c1Params c1State₂ 0 :=
  C1_synchronous_jacobi_update c1Params 1 c1State₁ c1State₁ c1State₂ 0
    (by
      intro j hj
      fin_cases j
      · funext b c pi pj
        simp [c1State₁, c1State₂]
      · funext b c pi pj
        simp [c1State₁, c1State₂]
      all_goals exact absurd hj (by decide))

end ClaimC1

section ClaimC2

/-- C2 counterexample: the claim's neighbor rule fails on the code.
The source (line 207) hardcodes `abs(i - j) == 1`; there is no
configurable radius.  At `L = 3`, `i = 0`, with `R = 2 = L - 1`, the
spec's rule makes node 2 a neighbor of node 0, but the code's neighbor
list for node 0 is `[1]`. -/
theorem C2_neighbor_radius_counterexample :
    gpNeighborIdx 3 0 = [1] ∧ specNeighborIdx 2 3 0 = [1, 2] := by
  constructor <;> rfl

/-- C2 amended: the qualifying neighbor set of node `i` is exactly
`{j < L : |i - j| = 1}` — the radius is hardcoded to 1 (an equality
test, not a configurable `≤ R`), so every node is a neighbor of every
other only for `L ≤ 2`.  The second conjunct links the `Fin`-indexed
filter actually used by `gpNodeUpdate` to read the snapshot with the
index-level characterization. -/
theorem C2_neighbor_set_amended :
    (∀ L i j : ℕ, j ∈ gpNeighborIdx L i ↔
      j < L ∧ ((i : ℤ) - (j : ℤ)).natAbs = 1) ∧
    (∀ (L : ℕ) (i j : Fin L), j ∈ gpNeighborFin L i ↔
      (j : ℕ) ∈ gpNeighborIdx L (i : ℕ)) := by
  constructor
  · intro L i j
    simp [gpNeighborIdx, List.mem_filter, List.mem_range, and_comm]
  · intro L i j
    simp [gpNeighborFin, gpNeighborIdx, List.mem_filter, List.mem_finRange,
      List.mem_range, j.isLt]

end ClaimC2

section ClaimC3

/-- C3: a `GraphProcessor` constructed with `n_iterations = 0` returns
its input unchanged from `forward` — the refinement loop body never
runs and the input state is returned as is. -/
theorem C3_zero_iterations_identity {L B C H W : ℕ} (p : GPParams C H W)
    (hn : p.nIterations = 0) (x : GPState L B C H W) :
    gpForward p x = x := by
  unfold gpForward
  rw [hn, gpForwardN]

/-- Witness for C3: all-zero parameters with `n_iterations := 0` on a
concrete 5-node state. -/
theorem C3_zero_iterations_identity_witness :
    gpForward { c1Params with nIterations := 0 } c1State₂ = c1State₂ :=
  C3_zero_iterations_identity { c1Params with nIterations := 0 } rfl c1State₂

end ClaimC3

section ClaimC7

/-- `GraphProcessor` parameters identical to `c1Params` except that the
scalar fusion parameter is 2 — a valuation nothing in the source
constrains (the parameter is an unconstrained `nn.Parameter`). -/
def c7Params : GPParams 2 2 2 := { c1Params with weight := 2 }

/-- C7 counterexample: the fusion coefficient is the raw parameter
`self.weight`, not a sigmoid or clamped value, so it need not lie in
`[0, 1]`: with the parameter set to 2, combining an all-ones
intra-frame branch with an all-zero inter-frame branch yields the
constant 2 — impossible for any convex combination with `w ∈ [0, 1]`. -/
theorem C7_fusion_weight_counterexample :
    c7Params.weight = 2 ∧ c7Params.weight ∉ Set.Icc (0 : ℝ) 1 ∧
    gpCombined (B := 1) c7Params (fun _ _ _ _ => 1) (fun _ _ _ _ => 0) =
      (fun _ _ _ _ => 2) := by
  refine ⟨rfl, ?_, ?_⟩
  · simp only [Set.mem_Icc, c7Params, c1Params]
    norm_num
  · funext b c i j
    simp only [gpCombined, c7Params, c1Params]
    norm_num

/-- C7 amended: the combining rule is
`combined = w·intra + (1−w)·inter` where `w` is the raw scalar
parameter `self.weight` (no sigmoid, no clamping); its initialization
value is `0.5`, which does lie in `[0, 1]`, but arbitrary trained
valuations are unconstrained. -/
theorem C7_fusion_weight_amended :
    (∀ (B C H W : ℕ) (p : GPParams C H W) (intra inter : BTen B C H W)
      (b : Fin B) (c : Fin C) (i : Fin H) (j : Fin W),
      gpCombined p intra inter b c i j =
        p.weight * intra b c i j + (1 - p.weight) * inter b c i j) ∧
    gpInitWeight = 1 / 2 ∧ gpInitWeight ∈ Set.Icc (0 : ℝ) 1 := by
  refine ⟨fun _ _ _ _ _ _ _ _ _ _ _ => rfl, by norm_num [gpInitWeight], ?_⟩
  rw [Set.mem_Icc, gpInitWeight]
  norm_num

end ClaimC7

section ClaimC8

/-- C8: `ConvGRU.forward` returns `(1 − z)·h + z·h_hat`, where the
gates `z` and `r` are the two `C`-channel halves of the sigmoid of one
convolution of `x ++ h` (producing `2C` channels) — hence every gate
value lies in `[0, 1]` — and `h_hat` is the tanh of the second
convolution applied to `x ++ r·h`.  The function is total (no error
condition) and its output is indexed exactly like `h` (shape
preserved). -/
theorem C8_convgru_convex_update {C H W : ℕ} (p : GRUParams C)
    (x h : Ten C H W) (c : Fin C) (i : Fin H) (j : Fin W) :
    (0 ≤ gruZ p x h c i j ∧ gruZ p x h c i j ≤ 1) ∧
    (0 ≤ gruR p x h c i j ∧ gruR p x h c i j ≤ 1) ∧
    gruZ p x h c i j =
      sigmoid (conv3x3 p.convZrW p.convZrB (catCh x h) (Fin.castAdd C c) i j) ∧
    gruHhat p x h c i j =
      Real.tanh (conv3x3 p.convHW p.convHB
        (catCh x (fun c' i' j' => gruR p x h c' i' j' * h c' i' j')) c i j) ∧
    convGRU p x h c i j =
      (1 - gruZ p x h c i j) * h c i j +
        gruZ p x h c i j * gruHhat p x h c i j := by
  refine ⟨⟨?_, ?_⟩, ⟨?_, ?_⟩, rfl, rfl, rfl⟩
  · exact le_of_lt (sigmoid_pos _)
  · exact le_of_lt (sigmoid_lt_one _)
  · exact le_of_lt (sigmoid_pos _)
  · exact le_of_lt (sigmoid_lt_one _)

end ClaimC8

/-!
Shape-level semantics of the same code: PyTorch size propagation,
broadcasting and error behaviour, as computable functions on shapes
(`List ℕ`, outermost dimension first).  `none` models a raised runtime
error.
-/

/-- A PyTorch tensor shape, outermost dimension first. -/
abbrev Shape : Type := List ℕ

/-- PyTorch broadcasting on reversed (trailing-first) dimension lists:
missing dimensions count as 1; two sizes are compatible iff they are
equal or one of them is 1. -/
def broadcastRev : List ℕ → List ℕ → Option (List ℕ)
  | [], ys => some ys
  | x :: xs, [] => some (x :: xs)
  | x :: xs, y :: ys =>
    (broadcastRev xs ys).bind (fun rest =>
      if x = y then some (x :: rest)
      else if x = 1 then some (y :: rest)
      else if y = 1 then some (x :: rest)
      else none)

/-- PyTorch broadcasting of two shapes; `none` is the runtime error for
incompatible sizes. -/
def broadcast (s t : Shape) : Option Shape :=
  (broadcastRev s.reverse t.reverse).map List.reverse

/-- Shape of `nn.Conv2d(ci, co, kernel_size=k, padding=p)` applied to a
4-D input: requires the channel dimension to equal `ci` and the padded
extent to cover the kernel. -/
def conv2dShape (ci co k p : ℕ) : Shape → Option Shape
  | [b, c, h, w] =>
    if c = ci ∧ k ≤ h + 2 * p ∧ k ≤ w + 2 * p then
      some [b, co, h + 2 * p + 1 - k, w + 2 * p + 1 - k]
    else none
  | _ => none

/-- Shape of `x.view(B, C, -1)`: flatten the two spatial dimensions. -/
def viewFlat3 : Shape → Option Shape
  | [b, c, h, w] => some [b, c, h * w]
  | _ => none

/-- Shape of `x.view(B, C, h, w)` from a flattened 3-D tensor: the
element count must match. -/
def view4 (h w : ℕ) : Shape → Option Shape
  | [b, c, n] => if n = h * w then some [b, c, h, w] else none
  | _ => none

/-- Shape of `x.transpose(1, 2)` on a 3-D tensor. -/
def transpose12 : Shape → Option Shape
  | [a, m, n] => some [a, n, m]
  | _ => none

/-- Shape of `nn.Linear(inF, outF)`: acts on the last dimension. -/
def linearShape (inF outF : ℕ) (s : Shape) : Option Shape :=
  match s.reverse with
  | last :: rest => if last = inF then some ((outF :: rest).reverse) else none
  | [] => none

/-- Shape of `torch.bmm`: `[b, n, m] × [b, m, p] → [b, n, p]`. -/
def bmmShape : Shape → Shape → Option Shape
  | [b, n, m], [b', m', q] =>
    if b = b' ∧ m = m' then some [b, n, q] else none
  | _, _ => none

/-- Shape of `torch.cat([x, y], dim=1)` on 4-D tensors. -/
def catDim1 : Shape → Shape → Option Shape
  | [b, c, h, w], [b', c', h', w'] =>
    if b = b' ∧ h = h' ∧ w = w' then some [b, c + c', h, w] else none
  | _, _ => none

/-- Shape of `nn.AdaptiveAvgPool2d(1)` on a 4-D tensor. -/
def avgPool11 : Shape → Option Shape
  | [b, c, _, _] => some [b, c, 1, 1]
  | _ => none

/-- Shape of `nn.LayerNorm(normalized)` : the input's trailing
dimensions must equal the normalized shape (the source hardcodes
`[hidden_channels, 11, 11]`, lines 124-126). -/
def layerNormShape (normalized : Shape) (s : Shape) : Option Shape :=
  if normalized.length ≤ s.length ∧
      s.drop (s.length - normalized.length) = normalized then
    some s
  else none

/-- Shape of one chunk of `torch.split(zr, c, dim=1)` as used on line
47: the `2C`-channel tensor splits into exactly two `C`-channel
halves. -/
def splitCh (cHalf : ℕ) : Shape → Option Shape
  | [b, c, h, w] => if c = cHalf + cHalf then some [b, cHalf, h, w] else none
  | _ => none

/-- Shape semantics of `ConvGRU.forward` (lines 42-56). -/
def convGRUShape (c : ℕ) (sx sh : Shape) : Option Shape :=
  (catDim1 sx sh).bind fun comb =>
  (conv2dShape (c + c) (c + c) 3 1 comb).bind fun zr =>
  (splitCh c zr).bind fun z =>
  (broadcast z sh).bind fun rh =>
  (catDim1 sx rh).bind fun comb2 =>
  (conv2dShape (c + c) c 3 1 comb2).bind fun hh =>
  (broadcast z sh).bind fun t1 =>
  (broadcast z hh).bind fun t2 =>
  broadcast t1 t2

/-- Shape semantics of `GraphProcessor._compute_intra_attention`
(lines 142-156). -/
def intraAttentionShape (hidden : ℕ) (s : Shape) : Option Shape :=
  match s with
  | [_, _, h, w] =>
    (conv2dShape hidden hidden 1 0 s).bind fun q =>
    (conv2dShape hidden hidden 1 0 s).bind fun k =>
    (conv2dShape hidden hidden 1 0 s).bind fun v =>
    (viewFlat3 q).bind fun q3 =>
    (viewFlat3 k).bind fun k3 =>
    (viewFlat3 v).bind fun v3 =>
    (transpose12 q3).bind fun qT =>
    (bmmShape qT k3).bind fun att =>
    (transpose12 v3).bind fun vT =>
    (bmmShape att vT).bind fun out =>
    (transpose12 out).bind fun out2 =>
    (view4 h w out2).bind fun out3 =>
    broadcast out3 s
  | _ => none

/-- Shape semantics of one neighbor's message and gate inside
`GraphProcessor._compute_inter_attention` (lines 167-187): returns the
pair (message shape, gate shape). -/
def interMessageShape (hidden : ℕ) (xf s : Shape) : Option (Shape × Shape) :=
  match s with
  | [b, _, h, w] =>
    (catDim1 s [b, 1, h, w]).bind fun y1 =>
    (conv2dShape (hidden + 1) hidden 1 0 y1).bind fun y2 =>
    (viewFlat3 y2).bind fun y3 =>
    (transpose12 y3).bind fun y4 =>
    (linearShape hidden hidden y4).bind fun y5 =>
    (transpose12 y5).bind fun y6 =>
    (transpose12 xf).bind fun xT =>
    (bmmShape xT y6).bind fun e =>
    (transpose12 y6).bind fun y6T =>
    (bmmShape e y6T).bind fun m1 =>
    (transpose12 m1).bind fun m2 =>
    (view4 h w m2).bind fun m3 =>
    (conv2dShape hidden hidden 1 0 m3).bind fun g1 =>
    (avgPool11 g1).map fun g2 => (m3, g2)
  | _ => none

/-- Shape semantics of `GraphProcessor._compute_inter_attention`
(lines 158-197).  With an empty neighbor list the source returns
`torch.zeros_like(x)` where `x` has already been reassigned to its
flattened `(B, C, H*W)` view (line 163), so the zero tensor keeps the
flattened shape. -/
def interAttentionShape (hidden nNbrs : ℕ) (s : Shape) : Option Shape :=
  (viewFlat3 s).bind fun xf =>
  if nNbrs = 0 then some xf
  else
    (interMessageShape hidden xf s).bind fun mg =>
    (broadcast (nNbrs :: mg.1) (nNbrs :: mg.2)).bind fun gm =>
    match gm with
    | _ :: rest => some rest
    | [] => none

/-- Shape semantics of one node update in `GraphProcessor.forward`
(lines 204-216): intra-attention, inter-attention with the node's
number of neighbors, scalar-weighted broadcast combination, `ConvGRU`,
residual add, layer normalization with the hardcoded normalized shape
`[hidden, 11, 11]`. -/
def gpNodeShape (hidden nNbrs : ℕ) (s : Shape) : Option Shape :=
  (intraAttentionShape hidden s).bind fun intra =>
  (interAttentionShape hidden nNbrs s).bind fun inter =>
  (broadcast intra inter).bind fun comb =>
  (convGRUShape hidden comb s).bind fun g =>
  (broadcast g s).bind fun res =>
  layerNormShape [hidden, 11, 11] res

/-- Shape semantics of one round of `GraphProcessor.forward`: every
node is updated from the common per-node shape `s`; `torch.stack`
requires all resulting shapes to agree. -/
def gpRoundShape (hidden L : ℕ) (s : Shape) : Option Shape :=
  ((List.range L).mapM
    (fun i => gpNodeShape hidden (gpNeighborIdx L i).length s)).bind
    fun l =>
      match l with
      | [] => none
      | s0 :: rest => if rest.all (fun t => t = s0) then some s0 else none

/-- `n` rounds of shape propagation on the per-node shape. -/
def gpForwardShapeN (hidden L : ℕ) : ℕ → Shape → Option Shape
  | 0, s => some s
  | n + 1, s => (gpRoundShape hidden L s).bind (gpForwardShapeN hidden L n)

/-- Shape semantics of `GraphProcessor.forward` (lines 199-220) with
`n` iterations on a 5-D input `(L, B, C, H, W)`. -/
def gpForwardShape (hidden n : ℕ) (s5 : Shape) : Option Shape :=
  match s5 with
  | [l, b, c, h, w] =>
    (gpForwardShapeN hidden l n [b, c, h, w]).map (fun s => l :: s)
  | _ => none

section ShapeLemmas

lemma broadcastRev_self : ∀ s : List ℕ, broadcastRev s s = some s := by
  intro s
  induction s with
  | nil => rfl
  | cons x xs ih => simp [broadcastRev, ih]

lemma broadcast_self (s : Shape) : broadcast s s = some s := by
  simp [broadcast, broadcastRev_self]

lemma mapM_const_some {α β : Type} (f : α → Option β) (s : β) :
    ∀ l : List α, (∀ a ∈ l, f a = some s) →
      l.mapM f = some (l.map fun _ => s) := by
  intro l
  induction l with
  | nil => intro _; rfl
  | cons a l ih =>
    intro hall
    rw [List.mapM_cons, hall a (by simp), ih (fun b hb => hall b (by simp [hb]))]
    rfl

lemma gpNeighborIdx_length_pos (L i : ℕ) (hL : 2 ≤ L) (hi : i < L) :
    1 ≤ (gpNeighborIdx L i).length := by
  have hmem : (if i = 0 then 1 else i - 1) ∈ gpNeighborIdx L i := by
    rw [gpNeighborIdx, List.mem_filter]
    constructor
    · rw [List.mem_range]
      split <;> omega
    · simp only [decide_eq_true_eq]
      split <;> omega
  have := List.ne_nil_of_mem hmem
  have := List.length_pos.mpr this
  omega

lemma conv1x1Shape_ok (ci co B h w : ℕ) (hh : 1 ≤ h) (hw : 1 ≤ w) :
    conv2dShape ci co 1 0 [B, ci, h, w] = some [B, co, h, w] := by
  simp [conv2dShape]
  omega

lemma conv3x3Shape_ok (ci co B h w : ℕ) (hh : 1 ≤ h) (hw : 1 ≤ w) :
    conv2dShape ci co 3 1 [B, ci, h, w] = some [B, co, h, w] := by
  have e1 : h + 2 * 1 + 1 - 3 = h := by omega
  have e2 : w + 2 * 1 + 1 - 3 = w := by omega
  simp [conv2dShape, e1, e2]
  omega

lemma intraAttentionShape_ok (hidden B : ℕ) :
    intraAttentionShape hidden [B, hidden, 11, 11] =
      some [B, hidden, 11, 11] := by
  simp only [intraAttentionShape]
  rw [conv1x1Shape_ok _ _ _ _ _ (by norm_num) (by norm_num)]
  simp only [Option.some_bind, viewFlat3, transpose12, bmmShape]
  simp [view4, broadcast_self]

lemma interMessageShape_ok (hidden B : ℕ) :
    interMessageShape hidden [B, hidden, 121] [B, hidden, 11, 11] =
      some ([B, hidden, 11, 11], [B, hidden, 1, 1]) := by
  simp only [interMessageShape, catDim1]
  norm_num
  rw [conv1x1Shape_ok _ _ _ _ _ (by norm_num) (by norm_num)]
  simp only [Option.some_bind, viewFlat3, transpose12, linearShape, bmmShape]
  norm_num [view4]
  rw [conv1x1Shape_ok _ _ _ _ _ (by norm_num) (by norm_num)]
  simp [avgPool11]

lemma interAttentionShape_ok (hidden B m : ℕ) (hm : 1 ≤ m) :
    interAttentionShape hidden m [B, hidden, 11, 11] =
      some [B, hidden, 11, 11] := by
  obtain ⟨n, rfl⟩ : ∃ n, m = n + 1 := ⟨m - 1, by omega⟩
  simp only [interAttentionShape, viewFlat3, Option.some_bind]
  norm_num
  rw [interMessageShape_ok]
  simp [broadcast, broadcastRev]

lemma convGRUShape_ok (hidden B : ℕ) :
    convGRUShape hidden [B, hidden, 11, 11] [B, hidden, 11, 11] =
      some [B, hidden, 11, 11] := by
  simp only [convGRUShape, catDim1]
  norm_num
  rw [conv3x3Shape_ok _ _ _ _ _ (by norm_num) (by norm_num)]
  simp only [Option.some_bind, splitCh]
  norm_num
  rw [broadcast_self]
  simp only [Option.some_bind, catDim1]
  norm_num
  rw [conv3x3Shape_ok _ _ _ _ _ (by norm_num) (by norm_num)]
  simp [broadcast_self]

lemma gpNodeShape_ok (hidden B m : ℕ) (hm : 1 ≤ m) :
    gpNodeShape hidden m [B, hidden, 11, 11] = some [B, hidden, 11, 11] := by
  rw [gpNodeShape, intraAttentionShape_ok, interAttentionShape_ok _ _ _ hm]
  simp only [Option.some_bind]
  rw [broadcast_self]
  simp only [Option.some_bind]
  rw [convGRUShape_ok]
  simp only [Option.some_bind]
  rw [broadcast_self]
  simp only [Option.some_bind]
  simp [layerNormShape]

lemma gpRoundShape_ok (hidden L B : ℕ) (hL : 2 ≤ L) :
    gpRoundShape hidden L [B, hidden, 11, 11] = some [B, hidden, 11, 11] := by
  rw [gpRoundShape,
    mapM_const_some _ [B, hidden, 11, 11] _
      (fun i hi => gpNodeShape_ok hidden B _
        (gpNeighborIdx_length_pos L i hL (List.mem_range.mp hi)))]
  obtain ⟨k, rfl⟩ : ∃ k, L = k + 2 := ⟨L - 2, by omega⟩
  simp [List.replicate_succ, List.all_eq_true]

lemma gpForwardShapeN_ok (hidden L B n : ℕ) (hL : 2 ≤ L) :
    gpForwardShapeN hidden L n [B, hidden, 11, 11] =
      some [B, hidden, 11, 11] := by
  induction n with
  | zero => rfl
  | succ n ih => rw [gpForwardShapeN, gpRoundShape_ok hidden L B hL]; exact ih

end ShapeLemmas

section ClaimC5

/-- C5 (code bug): with an empty qualifying neighbor set (sequence
length 1: node 0 has no `j` with `|0 - j| = 1`), the source returns
`torch.zeros_like(x)` where `x` was reassigned to its flattened
`(B, C, H*W)` view on line 163 — so the inter-frame message has shape
`(1, 8, 121)` instead of the node's `(1, 8, 11, 11)` — and the
subsequent fused combination `weight * intra + (1 - weight) * inter`
(lines 209-211) then fails PyTorch broadcasting: the forward pass
raises an error rather than completing with a zero message. -/
theorem C5_no_neighbor_flattened_zeros_bug :
    interAttentionShape 8 0 [1, 8, 11, 11] = some [1, 8, 121] ∧
    interAttentionShape 8 0 [1, 8, 11, 11] ≠ some [1, 8, 11, 11] ∧
    gpForwardShape 8 3 [1, 1, 8, 11, 11] = none := by
  refine ⟨by decide, by decide, by decide⟩

end ClaimC5

section ClaimC6

/-- C6 counterexample: `GraphProcessor.forward` does not preserve the
shape of every valid `(L, batch, C, H, W)` input.  The layer
normalization hardcodes the normalized shape `[hidden, 11, 11]`
(lines 124-126), so a spatial size of 12×12 — accepted by every other
stage of the round — raises an error instead of returning a tensor of
the input's shape. -/
theorem C6_shape_preservation_counterexample :
    gpForwardShape 8 3 [2, 1, 8, 12, 12] = none ∧
    gpForwardShape 8 3 [2, 1, 8, 12, 12] ≠ some [2, 1, 8, 12, 12] := by
  refine ⟨by decide, by decide⟩

/-- C6 amended: for every sequence length `L ≥ 2` (for `L = 1` the
no-neighbor bug of C5 aborts the pass), every batch size, and the
configuration-determined channel width `C = hidden` and hardcoded
spatial size `H = W = 11`, the forward pass returns exactly the input
shape for any iteration count; in particular every single round maps
the per-node shape `(B, C, 11, 11)` to itself — the engine never
resizes feature maps. -/
theorem C6_shape_preservation_amended (hidden L B n : ℕ) (hL : 2 ≤ L) :
    (∀ m, 1 ≤ m → gpNodeShape hidden m [B, hidden, 11, 11] =
      some [B, hidden, 11, 11]) ∧
    gpForwardShape hidden n [L, B, hidden, 11, 11] =
      some [L, B, hidden, 11, 11] := by
  refine ⟨fun m hm => gpNodeShape_ok hidden B m hm, ?_⟩
  rw [gpForwardShape, gpForwardShapeN_ok hidden L B n hL]
  rfl

/-- Witness for the amended C6 at the concrete configuration of the
model: `hidden = 8`, `L = 5`, `B = 1`, three iterations. -/
theorem C6_shape_preservation_amended_witness :
    gpNodeShape 8 1 [1, 8, 11, 11] = some [1, 8, 11, 11] ∧
    gpForwardShape 8 3 [5, 1, 8, 11, 11] = some [5, 1, 8, 11, 11] :=
  ⟨(C6_shape_preservation_amended 8 5 1 3 (by norm_num)).1 1 (by norm_num),
   (C6_shape_preservation_amended 8 5 1 3 (by norm_num)).2⟩

end ClaimC6

/-!
The call-time input validation of `LiveSAL.forward` (lines 541-554) and
the output stage `final_layer` / `_get_outputs` (lines 349-367 and
521-539).  The multi-scale encoder (`ImageEncoder`, imported from
`src.models.image_encoder`, which is not part of the repository
sources) and the projection/fusion/decoding pipeline behind the
validation are abstracted as an opaque-to-the-claims function argument:
the validated error behaviour does not depend on them.
-/

/-- The validation prefix of `LiveSAL.forward` (lines 542-553), in
source order: raise `ValueError` (the spec's `ShapeError` category)
when the rank is not 4 or 5; then when the model was built without
graph processing but the input is rank 5; then when a rank-5 input's
dimension 1 (the sequence-length axis, configured as
`output_channels`) differs from the configuration.  `some msg` models a
raised error. -/
def liveSALCheck (withGraph : Bool) (outputChannels : ℕ) (dims : Shape) :
    Option String :=
  if ¬(dims.length = 4 ∨ dims.length = 5) then some "rank"
  else if withGraph = false ∧ dims.length = 5 then some "nograph"
  else if dims.length = 5 ∧ dims.getD 1 0 ≠ outputChannels then some "channels"
  else none

/-- `LiveSAL.forward` (lines 541-591) at the validation level: the
checks run first; only if they pass does the tensor pipeline
(encoding, projection, fusion, graph processing, decoding — lines
556-591, abstracted as `pipeline`) execute. -/
def liveSALForward {α : Type} (withGraph : Bool) (outputChannels : ℕ)
    (pipeline : Shape → α) (dims : Shape) : Except String α :=
  match liveSALCheck withGraph outputChannels dims with
  | some e => Except.error e
  | none => Except.ok (pipeline dims)

section ClaimC10

/-- C10: `LiveSAL.forward` raises its shape `ValueError` (the spec's
`ShapeError`) exactly when the input rank is neither 4 nor 5, or when
a rank-5 input's sequence-length dimension differs from the configured
one, or (the claim's final clause) when the model was built without
graph processing and the input is rank 5; and in every such case the
error is determined before any tensor computation: the result is the
same error for every pipeline. -/
theorem C10_shape_error_iff {α : Type} (wg : Bool) (oc : ℕ) (dims : Shape)
    (f g : Shape → α) :
    ((∃ e, liveSALForward wg oc f dims = Except.error e) ↔
      ((dims.length ≠ 4 ∧ dims.length ≠ 5) ∨
        (dims.length = 5 ∧ (dims.getD 1 0 ≠ oc ∨ wg = false)))) ∧
    (∀ e, liveSALForward wg oc f dims = Except.error e →
      liveSALForward wg oc g dims = Except.error e) := by
  have fw : ∀ (u : Shape → α) e,
      liveSALForward wg oc u dims = Except.error e ↔
        liveSALCheck wg oc dims = some e := by
    intro u e
    unfold liveSALForward
    cases hc : liveSALCheck wg oc dims
    · simp
    · simp
  have key : (∃ e, liveSALCheck wg oc dims = some e) ↔
      ((dims.length ≠ 4 ∧ dims.length ≠ 5) ∨
        (dims.length = 5 ∧ (dims.getD 1 0 ≠ oc ∨ wg = false))) := by
    unfold liveSALCheck
    by_cases hlen : dims.length = 4 ∨ dims.length = 5
    · rw [if_neg (not_not_intro hlen)]
      by_cases hng : wg = false ∧ dims.length = 5
      · rw [if_pos hng]
        simp only [Option.some.injEq, exists_eq']
        exact iff_of_true trivial (Or.inr ⟨hng.2, Or.inr hng.1⟩)
      · rw [if_neg hng]
        by_cases hch : dims.length = 5 ∧ dims.getD 1 0 ≠ oc
        · rw [if_pos hch]
          simp only [Option.some.injEq, exists_eq']
          exact iff_of_true trivial (Or.inr ⟨hch.1, Or.inl hch.2⟩)
        · rw [if_neg hch]
          constructor
          · rintro ⟨e, he⟩
            exact Option.noConfusion he
          · rintro (⟨h4, h5⟩ | ⟨h5, hne | hwg⟩)
            · rcases hlen with h | h
              · exact absurd h h4
              · exact absurd h h5
            · exact absurd ⟨h5, hne⟩ hch
            · exact absurd ⟨hwg, h5⟩ hng
    · rw [if_pos hlen]
      simp only [Option.some.injEq, exists_eq']
      push_neg at hlen
      exact iff_of_true trivial (Or.inl hlen)
  constructor
  · rw [← key]
    constructor
    · rintro ⟨e, he⟩
      exact ⟨e, (fw f e).mp he⟩
    · rintro ⟨e, he⟩
      exact ⟨e, (fw f e).mpr he⟩
  · intro e he
    exact (fw g e).mpr ((fw f e).mp he)

/-- Witness for C10 at the spec's malformed-input scenario: a rank-3
input is rejected with the same error under two different pipelines
(no tensor computation is reached). -/
theorem C10_shape_error_iff_witness :
    liveSALForward true 5 (fun _ => (0 : ℕ)) [1, 2, 3] =
      Except.error "rank" ∧
    liveSALForward true 5 (fun _ => (1 : ℕ)) [1, 2, 3] =
      Except.error "rank" :=
  ⟨rfl,
    (C10_shape_error_iff true 5 [1, 2, 3] (fun _ => 0) (fun _ => 1)).2
      "rank" rfl⟩

end ClaimC10

/-- `max(x, 0)` — `nn.ReLU`. -/
def relu (x : ℝ) : ℝ := max x 0

/-- Clamped read of a feature map at integer coordinates: PyTorch
border handling for bilinear interpolation (indices clamped into
range). -/
def clampGet {C H W : ℕ} (x : Ten C H W) (c : Fin C) (i j : ℤ) : ℝ :=
  if hH : 0 < H then
    if hW : 0 < W then
      x c ⟨(max 0 (min i ((H : ℤ) - 1))).toNat, by omega⟩
        ⟨(max 0 (min j ((W : ℤ) - 1))).toNat, by omega⟩
    else 0
  else 0

/-- `nn.functional.interpolate(mode="bilinear", align_corners=False)`
on one batch element: source coordinates
`s = (dst + 0.5) · in/out − 0.5`, bilinear weights from the fractional
part, border values clamped. -/
noncomputable def interpBilinear {C Hin Win : ℕ} (Hout Wout : ℕ)
    (x : Ten C Hin Win) : Ten C Hout Wout :=
  fun c i j =>
    let sy : ℝ := ((i : ℝ) + 1 / 2) * (Hin : ℝ) / (Hout : ℝ) - 1 / 2
    let sx : ℝ := ((j : ℝ) + 1 / 2) * (Win : ℝ) / (Wout : ℝ) - 1 / 2
    let y0 : ℤ := ⌊sy⌋
    let x0 : ℤ := ⌊sx⌋
    let dy : ℝ := sy - (y0 : ℝ)
    let dx : ℝ := sx - (x0 : ℝ)
    (1 - dy) * ((1 - dx) * clampGet x c y0 x0 + dx * clampGet x c y0 (x0 + 1)) +
      dy * ((1 - dx) * clampGet x c (y0 + 1) x0 +
        dx * clampGet x c (y0 + 1) (x0 + 1))

/-- Learned parameters of `LiveSAL.final_layer` (lines 349-367):
`Conv2d(C, C/2, 3, padding=1, bias=False)`, `BatchNorm2d(C/2)` (running
statistics, affine weight/bias, `eps = 1e-5`), `ReLU`,
`Conv2d(C/2, 1, 3, padding=1, bias=True)`, `Sigmoid`.  The half width
`C2 = C/2` is carried as its own parameter. -/
structure FinalParams (C C2 : ℕ) where
  conv1W : Fin C2 → Fin C → Fin 3 → Fin 3 → ℝ
  bnMean : Fin C2 → ℝ
  bnVar : Fin C2 → ℝ
  bnW : Fin C2 → ℝ
  bnB : Fin C2 → ℝ
  conv2W : Fin 1 → Fin C2 → Fin 3 → Fin 3 → ℝ
  conv2B : Fin 1 → ℝ

/-- The pre-sigmoid activation of `final_layer`: second convolution of
the ReLU of the batch-normalized first convolution. -/
noncomputable def finalPreact {C C2 H W : ℕ} (p : FinalParams C C2)
    (x : Ten C H W) : Ten 1 H W :=
  let c1 := conv3x3 p.conv1W (fun _ => 0) x
  let bn : Ten C2 H W := fun c i j =>
    (c1 c i j - p.bnMean c) / Real.sqrt (p.bnVar c + 1e-5) * p.bnW c + p.bnB c
  conv3x3 p.conv2W p.conv2B (fun c i j => relu (bn c i j))

/-- `LiveSAL.final_layer` (lines 349-367) on one batch element: a
sigmoid of the pre-activation.  No division by the per-map maximum
appears anywhere in the source. -/
noncomputable def finalLayer {C C2 H W : ℕ} (p : FinalParams C C2)
    (x : Ten C H W) : Ten 1 H W :=
  fun c i j => sigmoid (finalPreact p x c i j)

/-- `LiveSAL._get_outputs` (lines 521-539): each of the `T` per-frame
decoded feature maps is bilinearly upsampled to the output resolution
and passed through `final_layer`; the results are stacked, the
singleton channel squeezed and the first two axes transposed, giving
the emitted saliency maps indexed `(batch, frame, row, column)`. -/
noncomputable def getOutputs {T B C C2 h w : ℕ} (Hout Wout : ℕ)
    (p : FinalParams C C2) (decoded : Fin T → BTen B C h w) :
    Fin B → Fin T → Fin Hout → Fin Wout → ℝ :=
  fun b t i j => finalLayer p (interpBilinear Hout Wout (decoded t b)) 0 i j

section ClaimC9

lemma conv3x3_zero_weights {Ci H W : ℕ} (b : Fin 1 → ℝ) (x : Ten Ci H W)
    (c : Fin 1) (i : Fin H) (j : Fin W) :
    conv3x3 (fun _ _ _ _ => (0 : ℝ)) b x c i j = b c := by
  simp [conv3x3]

/-- Concrete `final_layer` parameters with the last convolution's
weights and bias zero (biases zero, weights otherwise arbitrary —
here zero). -/
noncomputable def c9Params : FinalParams 2 1 where
  conv1W := fun _ _ _ _ => 0
  bnMean := fun _ => 0
  bnVar := fun _ => 1
  bnW := fun _ => 1
  bnB := fun _ => 0
  conv2W := fun _ _ _ _ => 0
  conv2B := fun _ => 0

/-- A concrete all-zero decoded feature stack (`T = 1`, `B = 1`,
`C = 2`, 3×3 spatial). -/
def c9Decoded : Fin 1 → BTen 1 2 3 3 := fun _ _ _ _ _ => 0

/-- C9 counterexample: the model's emitted saliency maps are *not*
renormalized by their per-map maximum.  The final stage is a bare
sigmoid (lines 349-367, 521-539): with the last convolution zeroed
out, every emitted pixel is `sigmoid 0 = 1/2`, so the emitted map is
nowhere zero yet its maximum is `1/2`, not `1` (within any epsilon
below `1/2`). -/
theorem C9_peak_normalization_counterexample :
    getOutputs 4 4 c9Params c9Decoded = (fun _ _ _ _ => (1 : ℝ) / 2) ∧
    (1 : ℝ) / 2 ≠ 0 ∧ (1 : ℝ) / 2 ≠ 1 := by
  refine ⟨?_, by norm_num, by norm_num⟩
  funext b t i j
  show sigmoid (finalPreact c9Params _ 0 i j) = 1 / 2
  have hpre : finalPreact c9Params
      (interpBilinear 4 4 (c9Decoded t b)) 0 i j = 0 := by
    show conv3x3 c9Params.conv2W c9Params.conv2B _ 0 i j = 0
    have : c9Params.conv2W = fun _ _ _ _ => 0 := rfl
    rw [this, conv3x3_zero_weights]
    rfl
  rw [hpre, sigmoid_zero]

/-- C9 amended: every emitted pixel is exactly the sigmoid of the final
pre-activation of the upsampled decoded features — in particular it
lies strictly between 0 and 1 — and no per-map maximum renormalization
is applied. -/
theorem C9_final_sigmoid_amended {T B C C2 h w : ℕ} (Hout Wout : ℕ)
    (p : FinalParams C C2) (decoded : Fin T → BTen B C h w)
    (b : Fin B) (t : Fin T) (i : Fin Hout) (j : Fin Wout) :
    getOutputs Hout Wout p decoded b t i j =
      sigmoid (finalPreact p (interpBilinear Hout Wout (decoded t b)) 0 i j) ∧
    0 < getOutputs Hout Wout p decoded b t i j ∧
    getOutputs Hout Wout p decoded b t i j < 1 :=
  ⟨rfl, sigmoid_pos _, sigmoid_lt_one _⟩

end ClaimC9

section ClaimC4

/-- All learned *bias* parameters of the graph processor are zero: the
biases of the three intra-attention convolutions, of
`inter_message_edge_conv`, of `inter_gate_conv`, of the two `ConvGRU`
convolutions, and the additive (`β`) parameter of the layer
normalization.  (`inter_weight` is constructed with `bias=False`;
`intra_alpha`, `weight` and all convolution kernels are weights.) -/
def BiasesZero {C H W : ℕ} (p : GPParams C H W) : Prop :=
  p.intraKeyB = (fun _ => 0) ∧ p.intraQueryB = (fun _ => 0) ∧
  p.intraValueB = (fun _ => 0) ∧ p.interMsgB = (fun _ => 0) ∧
  p.interGateB = (fun _ => 0) ∧ p.gru.convZrB = (fun _ => 0) ∧
  p.gru.convHB = (fun _ => 0) ∧ p.normB = (fun _ _ _ => 0)

/-- The column of `inter_message_edge_conv` weights that reads the
edge-feature input channel (the last of the `C + 1` input channels) is
zero. -/
def EdgeColZero {C H W : ℕ} (p : GPParams C H W) : Prop :=
  ∀ c, p.interMsgW c (Fin.natAdd C 0) = 0

lemma catCh_left {C₁ C₂ H W : ℕ} (x : Ten C₁ H W) (y : Ten C₂ H W)
    (k : Fin C₁) : catCh x y (Fin.castAdd C₂ k) = x k := by
  simp [catCh]

lemma catCh_right {C₁ C₂ H W : ℕ} (x : Ten C₁ H W) (y : Ten C₂ H W)
    (k : Fin C₂) : catCh x y (Fin.natAdd C₁ k) = y k := by
  simp [catCh]

lemma padGet_zero {C H W : ℕ} (c : Fin C) (i j : ℤ) :
    padGet ((fun _ _ _ => 0) : Ten C H W) c i j = 0 := by
  unfold padGet
  split <;> rfl

lemma conv1x1_zero_input {Ci Co H W : ℕ} (w : Fin Co → Fin Ci → ℝ)
    (c : Fin Co) (i : Fin H) (j : Fin W) :
    conv1x1 w (fun _ => 0) ((fun _ _ _ => 0) : Ten Ci H W) c i j = 0 := by
  simp [conv1x1]

lemma conv3x3_zero_input {Ci Co H W : ℕ}
    (w : Fin Co → Fin Ci → Fin 3 → Fin 3 → ℝ) (c : Fin Co) (i : Fin H)
    (j : Fin W) :
    conv3x3 w (fun _ => 0) ((fun _ _ _ => 0) : Ten Ci H W) c i j = 0 := by
  simp [conv3x3, padGet_zero]

lemma catCh_zero {C₁ C₂ H W : ℕ} (c : Fin (C₁ + C₂)) :
    catCh ((fun _ _ _ => 0) : Ten C₁ H W) ((fun _ _ _ => 0) : Ten C₂ H W) c =
      fun _ _ => (0 : ℝ) := by
  refine Fin.addCases (fun k => ?_) (fun k => ?_) c
  · rw [catCh_left]
  · rw [catCh_right]

lemma layerNorm_zero {C H W : ℕ} (γ : Ten C H W) (c : Fin C) (i : Fin H)
    (j : Fin W) :
    layerNorm γ (fun _ _ _ => 0) (fun _ _ _ => 0) c i j = 0 := by
  simp [layerNorm]

/-- With zero biases, the intra-frame attention of an all-zero feature
map is all-zero (the value projection vanishes, so the attention
output is zero whatever the softmax weights are, and the residual term
is zero). -/
lemma intraAttention_zero {C H W : ℕ} (p : GPParams C H W)
    (hb : p.intraValueB = fun _ => 0) (c : Fin C) (i : Fin H) (j : Fin W) :
    intraAttention p (fun _ _ _ => 0) c i j = 0 := by
  unfold intraAttention
  rw [hb]
  simp [conv1x1_zero_input]

/-- With a zero bias and a zero edge column, the transformed neighbor
features of an all-zero neighbor are all-zero: the feature channels are
zero and the edge channel is killed by the zero weight column. -/
lemma interTransformed_zero {C H W : ℕ} (p : GPParams C H W) (i j : ℕ)
    (hb : p.interMsgB = fun _ => 0) (he : EdgeColZero p) (c : Fin C)
    (pi : Fin H) (pj : Fin W) :
    interTransformed p i j (fun _ _ _ => 0) c pi pj = 0 := by
  unfold interTransformed conv1x1
  rw [hb]
  have hy : ∀ c' : Fin C,
      (∑ k : Fin (C + 1), p.interMsgW c' k *
        catCh (fun _ _ _ => (0 : ℝ)) (fun _ _ _ => edgeFeature i j) k pi pj)
        = 0 := by
    intro c'
    rw [Fin.sum_univ_add]
    have h1 : ∀ k : Fin C, p.interMsgW c' (Fin.castAdd 1 k) *
        catCh (fun _ _ _ => (0 : ℝ)) (fun _ _ _ => edgeFeature i j)
          (Fin.castAdd 1 k) pi pj = 0 := by
      intro k
      rw [catCh_left]
      ring
    have h2 : ∀ k : Fin 1, p.interMsgW c' (Fin.natAdd C k) *
        catCh (fun _ _ _ => (0 : ℝ)) (fun _ _ _ => edgeFeature i j)
          (Fin.natAdd C k) pi pj = 0 := by
      intro k
      have hk : k = 0 := Fin.eq_zero k
      rw [hk, he c']
      ring
    simp [h1, h2]
  simp [hy]

lemma interMessage_zero {C H W : ℕ} (p : GPParams C H W) (i j : ℕ)
    (x : Ten C H W) (hb : p.interMsgB = fun _ => 0) (he : EdgeColZero p)
    (c : Fin C) (pi : Fin H) (pj : Fin W) :
    interMessage p i j x (fun _ _ _ => 0) c pi pj = 0 := by
  unfold interMessage
  have hz : ∀ q : Fin H × Fin W,
      interTransformed p i j (fun _ _ _ => 0) c q.1 q.2 = 0 :=
    fun q => interTransformed_zero p i j hb he c q.1 q.2
  simp [hz]

/-- With zero biases and a zero edge column, every neighbor being
all-zero makes the summed gated inter-frame message all-zero. -/
lemma interAttention_zero {C H W : ℕ} (p : GPParams C H W) (i : ℕ)
    (x : Ten C H W) (nbrs : List (ℕ × Ten C H W))
    (hnb : ∀ jy ∈ nbrs, jy.2 = fun _ _ _ => 0)
    (hb : p.interMsgB = fun _ => 0) (he : EdgeColZero p) (c : Fin C)
    (pi : Fin H) (pj : Fin W) :
    interAttention p i x nbrs c pi pj = 0 := by
  unfold interAttention
  have hfold : ∀ l : List (Ten C H W),
      (∀ t ∈ l, t c pi pj = 0) →
      (l.foldr (fun t acc => fun c' pi' pj' => t c' pi' pj' + acc c' pi' pj')
        (fun _ _ _ => 0)) c pi pj = 0 := by
    intro l
    induction l with
    | nil => intro _; rfl
    | cons t rest ih =>
      intro hall
      simp only [List.foldr_cons]
      rw [hall t (by simp), ih (fun u hu => hall u (by simp [hu])), add_zero]
  apply hfold
  intro t ht
  rw [List.mem_map] at ht
  obtain ⟨jy, hjy, rfl⟩ := ht
  have hy : jy.2 = fun _ _ _ => 0 := hnb jy hjy
  rw [hy]
  show interMessage p i jy.1 x (fun _ _ _ => 0) c pi pj * _ = 0
  rw [interMessage_zero p i jy.1 x hb he c pi pj, zero_mul]

/-- `ConvGRU` of an all-zero input and all-zero hidden state is
all-zero whatever the weights are (with zero convolution biases): the
candidate is `tanh 0 = 0` and the update is a convex combination of
zeros. -/
lemma convGRU_zero {C H W : ℕ} (p : GRUParams C)
    (_hbz : p.convZrB = fun _ => 0) (hbh : p.convHB = fun _ => 0)
    (c : Fin C) (i : Fin H) (j : Fin W) :
    convGRU p (fun _ _ _ => 0) (fun _ _ _ => 0) c i j = 0 := by
  unfold convGRU gruHhat
  have hcat : catCh ((fun _ _ _ => 0) : Ten C H W)
      (fun c' i' j' =>
        gruR p ((fun _ _ _ => 0) : Ten C H W) ((fun _ _ _ => 0) : Ten C H W)
          c' i' j' * ((fun _ _ _ => 0) : Ten C H W) c' i' j') =
      ((fun _ _ _ => 0) : Ten (C + C) H W) := by
    have h0 : (fun c' i' j' =>
        gruR p ((fun _ _ _ => 0) : Ten C H W) ((fun _ _ _ => 0) : Ten C H W)
          c' i' j' * ((fun _ _ _ => 0) : Ten C H W) c' i' j') =
        ((fun _ _ _ => 0) : Ten C H W) := by
      funext c' i' j'
      exact mul_zero _
    rw [h0]
    funext k
    exact catCh_zero k
  rw [hcat, hbh, mul_zero, zero_add, conv3x3_zero_input, Real.tanh_zero,
    mul_zero]

lemma gpNodeUpdate_zero {L B C H W : ℕ} (p : GPParams C H W)
    (hb : BiasesZero p) (he : EdgeColZero p) (i : Fin L) :
    gpNodeUpdate p ((fun _ _ _ _ _ => 0) : GPState L B C H W) i =
      ((fun _ _ _ _ => 0) : BTen B C H W) := by
  obtain ⟨h1, h2, h3, h4, h5, h6, h7, h8⟩ := hb
  funext b c pi pj
  simp only [gpNodeUpdate, convGRUB, gpCombined]
  have hzero : ∀ c' : Fin C, ∀ pi' : Fin H, ∀ pj' : Fin W,
      p.weight * intraAttention p ((fun _ _ _ => 0) : Ten C H W) c' pi' pj' +
        (1 - p.weight) *
          interAttention p (i : ℕ) ((fun _ _ _ => 0) : Ten C H W)
            ((gpNeighborFin L i).map
              (fun j => (j.val, ((fun _ _ _ => 0) : Ten C H W))))
            c' pi' pj' = 0 := by
    intro c' pi' pj'
    rw [intraAttention_zero p h3]
    rw [interAttention_zero p (i : ℕ) _ _ ?hn h4 he]
    · ring
    case hn =>
      intro jy hjy
      rw [List.mem_map] at hjy
      obtain ⟨j, _, rfl⟩ := hjy
      rfl
  have hcomb : gpCombined p
      (fun _ : Fin B => intraAttention p ((fun _ _ _ => 0) : Ten C H W))
      (fun _ : Fin B =>
        interAttention p (i : ℕ) ((fun _ _ _ => 0) : Ten C H W)
          ((gpNeighborFin L i).map
            (fun j => (j.val, ((fun _ _ _ => 0) : Ten C H W))))) b =
      ((fun _ _ _ => 0) : Ten C H W) := by
    funext c' pi' pj'
    exact hzero c' pi' pj'
  rw [hcomb]
  have hx : (fun c' pi' pj' =>
      convGRU p.gru ((fun _ _ _ => 0) : Ten C H W)
        ((fun _ _ _ => 0) : Ten C H W) c' pi' pj' + 0) =
      ((fun _ _ _ => 0) : Ten C H W) := by
    funext c' pi' pj'
    rw [convGRU_zero p.gru h6 h7, add_zero]
  rw [hx, h8]
  exact layerNorm_zero p.normW c pi pj


/-- A zero-valued `GRUParams` record. -/
def zeroGRUParams (C : ℕ) : GRUParams C where
  convZrW := fun _ _ _ _ => 0
  convZrB := fun _ => 0
  convHW := fun _ _ _ _ => 0
  convHB := fun _ => 0

/-- A zero-valued `GPParams` record with `n` iterations. -/
def zeroGPParams (C H W n : ℕ) : GPParams C H W where
  intraKeyW := fun _ _ => 0
  intraKeyB := fun _ => 0
  intraQueryW := fun _ _ => 0
  intraQueryB := fun _ => 0
  intraValueW := fun _ _ => 0
  intraValueB := fun _ => 0
  intraAlpha := 0
  interMsgW := fun _ _ => 0
  interMsgB := fun _ => 0
  interWeightW := fun _ _ => 0
  weight := 0
  interGateW := fun _ _ => 0
  interGateB := fun _ => 0
  gru := zeroGRUParams C
  normW := fun _ _ _ => 0
  normB := fun _ _ _ => 0
  nIterations := n

/-- C4 amended: the all-zero input is a fixed point of
`GraphProcessor.forward` for arbitrary weights when all learned biases
are zero *and* the `inter_message_edge_conv` weights reading the
edge-feature channel are zero.  (The claim as stated omits the second
condition, and fails without it: the edge features inject the nonzero
constants `i - j` even on all-zero input — see the counterexample.) -/
theorem C4_zero_fixed_point_amended {L B C H W : ℕ} (p : GPParams C H W)
    (hb : BiasesZero p) (he : EdgeColZero p) :
    (∀ n : ℕ, gpForwardN p n ((fun _ _ _ _ _ => 0) : GPState L B C H W) =
      ((fun _ _ _ _ _ => 0) : GPState L B C H W)) ∧
    gpForward p ((fun _ _ _ _ _ => 0) : GPState L B C H W) =
      ((fun _ _ _ _ _ => 0) : GPState L B C H W) := by
  have hround : gpRound p ((fun _ _ _ _ _ => 0) : GPState L B C H W) =
      ((fun _ _ _ _ _ => 0) : GPState L B C H W) := by
    funext i
    exact gpNodeUpdate_zero p hb he i
  have hN : ∀ n : ℕ,
      gpForwardN p n ((fun _ _ _ _ _ => 0) : GPState L B C H W) =
        ((fun _ _ _ _ _ => 0) : GPState L B C H W) := by
    intro n
    induction n with
    | zero => rfl
    | succ n ih => rw [gpForwardN, hround]; exact ih
  exact ⟨hN, hN p.nIterations⟩

/-- Witness for the amended C4 at the claim's scenario sizes:
`L = 5`, `C = 8`, `H = W = 11`, `batch = 1`, three iterations, all-zero
parameters. -/
theorem C4_zero_fixed_point_amended_witness :
    BiasesZero (zeroGPParams 8 11 11 3) ∧ EdgeColZero (zeroGPParams 8 11 11 3) ∧
    gpForward (zeroGPParams 8 11 11 3)
        ((fun _ _ _ _ _ => 0) : GPState 5 1 8 11 11) =
      ((fun _ _ _ _ _ => 0) : GPState 5 1 8 11 11) :=
  ⟨⟨rfl, rfl, rfl, rfl, rfl, rfl, rfl, rfl⟩, fun _ => rfl,
    (C4_zero_fixed_point_amended (zeroGPParams 8 11 11 3)
      ⟨rfl, rfl, rfl, rfl, rfl, rfl, rfl, rfl⟩ (fun _ => rfl)).2⟩


section C4Counter

lemma softmax_sum_one {ι : Type} [Fintype ι] [Nonempty ι] (f : ι → ℝ) :
    ∑ q : ι, softmax f q = 1 := by
  unfold softmax
  rw [← Finset.sum_div]
  apply div_self
  have : 0 < ∑ p : ι, Real.exp (f p) :=
    Finset.sum_pos (fun p _ => Real.exp_pos (f p)) Finset.univ_nonempty
  linarith

lemma tanh_neg_of_neg {x : ℝ} (hx : x < 0) : Real.tanh x < 0 := by
  rw [Real.tanh_eq_sinh_div_cosh]
  apply div_neg_of_neg_of_pos
  · rw [← Real.sinh_zero]
    exact Real.sinh_lt_sinh.mpr hx
  · exact Real.cosh_pos x

lemma conv1x1_zero_w {Ci Co H W : ℕ} (x : Ten Ci H W) (c : Fin Co)
    (i : Fin H) (j : Fin W) :
    conv1x1 (fun _ _ => (0 : ℝ)) (fun _ => 0) x c i j = 0 := by
  simp [conv1x1]

lemma conv3x3_zero_w {Ci Co H W : ℕ} (x : Ten Ci H W) (c : Fin Co)
    (i : Fin H) (j : Fin W) :
    conv3x3 (fun _ _ _ _ => (0 : ℝ)) (fun _ => 0) x c i j = 0 := by
  simp [conv3x3]

lemma padGet_fin {C H W : ℕ} (x : Ten C H W) (c : Fin C) (i : Fin H)
    (j : Fin W) :
    padGet x c ((i : ℕ) : ℤ) ((j : ℕ) : ℤ) = x c i j := by
  unfold padGet
  rw [dif_pos]
  · simp
  · refine ⟨by positivity, ?_, by positivity, ?_⟩
    · exact_mod_cast i.isLt
    · exact_mod_cast j.isLt

/-- With zero value-projection weights and bias, the intra-frame
attention acts as the identity on any input (the attention output
vanishes and only the residual remains). -/
lemma intraAttention_id {C H W : ℕ} (p : GPParams C H W)
    (hw : p.intraValueW = fun _ _ => 0) (hb : p.intraValueB = fun _ => 0)
    (x : Ten C H W) : intraAttention p x = x := by
  funext c i j
  unfold intraAttention
  rw [hw, hb]
  simp [conv1x1_zero_w]

/-- `ConvGRU` parameters for the C4 counterexample: `conv_zr` all zero
(so both gates are `sigmoid 0 = 1/2`); `conv_h` a center-tap kernel
reading concatenated input channel 0 (= channel 0 of `x`) into output
channel 0. -/
noncomputable def c4Gru : GRUParams 8 where
  convZrW := fun _ _ _ _ => 0
  convZrB := fun _ => 0
  convHW := fun c c' a d =>
    if c = 0 ∧ c' = Fin.castAdd 8 0 ∧ a = 1 ∧ d = 1 then 1 else 0
  convHB := fun _ => 0

/-- `GraphProcessor` parameters for the C4 counterexample.  All biases
are zero (as the claim requires); the weights are: zero intra
query/key/value kernels (making intra-attention the identity),
`inter_message_edge_conv` reading only the edge-feature channel into
channel 0, identity `inter_weight`, zero gate convolution (gate
`= 1/2`), fusion weight at its initialization `0.5`, `c4Gru`, unit
layer-norm weight, 3 iterations. -/
noncomputable def c4Params : GPParams 8 11 11 where
  intraKeyW := fun _ _ => 0
  intraKeyB := fun _ => 0
  intraQueryW := fun _ _ => 0
  intraQueryB := fun _ => 0
  intraValueW := fun _ _ => 0
  intraValueB := fun _ => 0
  intraAlpha := 1
  interMsgW := fun c c' => if c = 0 ∧ c' = Fin.natAdd 8 0 then 1 else 0
  interMsgB := fun _ => 0
  interWeightW := fun c c' => if c = c' then 1 else 0
  weight := 1 / 2
  interGateW := fun _ _ => 0
  interGateB := fun _ => 0
  gru := c4Gru
  normW := fun _ _ _ => 1
  normB := fun _ _ _ => 0
  nIterations := 3

lemma c4_interTransformed (i j : ℕ) (y : Ten 8 11 11) :
    interTransformed c4Params i j y =
      fun c _ _ => if c = 0 then edgeFeature i j else 0 := by
  funext c pi pj
  unfold interTransformed
  have hy1 : ∀ c' : Fin 8,
      conv1x1 c4Params.interMsgW c4Params.interMsgB
        (catCh y (fun _ _ _ => edgeFeature i j)) c' pi pj =
        if c' = 0 then edgeFeature i j else 0 := by
    intro c'
    unfold conv1x1
    have hne : ∀ k : Fin 8,
        (Fin.castAdd 1 k : Fin (8 + 1)) ≠ Fin.natAdd 8 0 := by
      intro k h
      have := congrArg Fin.val h
      simp [Fin.castAdd, Fin.natAdd] at this
      omega
    rw [Fin.sum_univ_add]
    show (∑ k : Fin 8, c4Params.interMsgW c' (Fin.castAdd 1 k) * _) +
        (∑ k : Fin 1, c4Params.interMsgW c' (Fin.natAdd 8 k) * _) + _ = _
    have h1 : (∑ k : Fin 8, c4Params.interMsgW c' (Fin.castAdd 1 k) *
        catCh y (fun _ _ _ => edgeFeature i j) (Fin.castAdd 1 k) pi pj) = 0 := by
      apply Finset.sum_eq_zero
      intro k _
      show (if c' = 0 ∧ Fin.castAdd 1 k = Fin.natAdd 8 0 then (1 : ℝ) else 0) * _ = 0
      rw [if_neg (by
        rintro ⟨-, hk⟩
        exact hne k hk)]
      ring
    rw [h1]
    rw [Fin.sum_univ_one]
    rw [catCh_right]
    show 0 + (if c' = 0 ∧ (Fin.natAdd 8 0 : Fin (8 + 1)) = Fin.natAdd 8 0
      then (1 : ℝ) else 0) * edgeFeature i j + (0 : ℝ) = _
    by_cases hc : c' = 0
    · rw [if_pos ⟨hc, rfl⟩, if_pos hc]
      ring
    · rw [if_neg (by
        rintro ⟨h, -⟩
        exact hc h), if_neg hc]
      ring
  have hw : ∀ c' : Fin 8, c4Params.interWeightW c c' =
      if c = c' then 1 else 0 := fun _ => rfl
  calc (∑ c' : Fin 8, c4Params.interWeightW c c' *
        conv1x1 c4Params.interMsgW c4Params.interMsgB
          (catCh y (fun _ _ _ => edgeFeature i j)) c' pi pj)
      = ∑ c' : Fin 8, (if c = c' then 1 else 0) *
          (if c' = 0 then edgeFeature i j else 0) := by
        apply Finset.sum_congr rfl
        intro c' _
        rw [hw, hy1]
    _ = if c = 0 then edgeFeature i j else 0 := by
        simp only [ite_mul, one_mul, zero_mul]
        rw [Finset.sum_ite_eq]
        simp

lemma c4_interMessage (i j : ℕ) (x y : Ten 8 11 11) :
    interMessage c4Params i j x y =
      fun c _ _ => if c = 0 then edgeFeature i j else 0 := by
  funext c pi pj
  unfold interMessage
  rw [c4_interTransformed]
  rw [← Finset.sum_mul, softmax_sum_one, one_mul]

lemma c4_interGate (m : Ten 8 11 11) (c : Fin 8) :
    interGate c4Params m c = 1 / 2 := by
  unfold interGate
  have hz : (∑ i : Fin 11, ∑ j : Fin 11,
      conv1x1 c4Params.interGateW c4Params.interGateB m c i j) = 0 := by
    apply Finset.sum_eq_zero
    intro i _
    apply Finset.sum_eq_zero
    intro j _
    exact conv1x1_zero_w m c i j
  rw [hz, zero_div, sigmoid_zero]

lemma c4_interAttention_node0 (x h1 : Ten 8 11 11) (c : Fin 8)
    (pi pj : Fin 11) :
    interAttention c4Params 0 x [(1, h1)] c pi pj =
      if c = 0 then -(1 / 2) else 0 := by
  unfold interAttention
  simp only [List.map_cons, List.map_nil, List.foldr_cons, List.foldr_nil]
  rw [c4_interMessage]
  rw [c4_interGate]
  have he : edgeFeature 0 1 = -1 := by
    norm_num [edgeFeature]
  rw [he]
  show (if c = 0 then (-1 : ℝ) else 0) * (1 / 2) + 0 = _
  by_cases hc : c = 0
  · rw [if_pos hc, if_pos hc]
    ring
  · rw [if_neg hc, if_neg hc]
    ring

lemma c4_gruZ (x h : Ten 8 11 11) (c : Fin 8) (i j : Fin 11) :
    gruZ c4Gru x h c i j = 1 / 2 := by
  unfold gruZ gruZR
  show sigmoid (conv3x3 (fun _ _ _ _ => (0 : ℝ)) (fun _ => 0) (catCh x h)
    (Fin.castAdd 8 c) i j) = 1 / 2
  rw [conv3x3_zero_w, sigmoid_zero]

lemma c4_convH (X : Ten (8 + 8) 11 11) (c : Fin 8) (i j : Fin 11) :
    conv3x3 c4Gru.convHW c4Gru.convHB X c i j =
      if c = 0 then X (Fin.castAdd 8 0) i j else 0 := by
  unfold conv3x3
  by_cases hc : c = 0
  · subst hc
    rw [if_pos rfl]
    have hstep : ∀ c' : Fin (8 + 8), ∀ a d : Fin 3,
        c4Gru.convHW 0 c' a d *
          padGet X c' ((i : ℤ) + (a : ℤ) - 1) ((j : ℤ) + (d : ℤ) - 1) =
        if c' = Fin.castAdd 8 0 then
          (if a = 1 then (if d = 1 then
            padGet X c' ((i : ℤ) + (a : ℤ) - 1) ((j : ℤ) + (d : ℤ) - 1)
            else 0) else 0) else 0 := by
      intro c' a d
      show (if (0 : Fin 8) = 0 ∧ c' = Fin.castAdd 8 0 ∧ a = 1 ∧ d = 1
        then (1 : ℝ) else 0) * _ = _
      by_cases h1 : c' = Fin.castAdd 8 0
      · by_cases h2 : a = 1
        · by_cases h3 : d = 1
          · rw [if_pos ⟨rfl, h1, h2, h3⟩, if_pos h1, if_pos h2, if_pos h3]
            ring
          · rw [if_neg (by tauto), if_pos h1, if_pos h2, if_neg h3]
            ring
        · rw [if_neg (by tauto), if_pos h1, if_neg h2]
          ring
      · rw [if_neg (by tauto), if_neg h1]
        ring
    have hsum : (∑ c' : Fin (8 + 8), ∑ a : Fin 3, ∑ d : Fin 3,
        c4Gru.convHW 0 c' a d *
          padGet X c' ((i : ℤ) + (a : ℤ) - 1) ((j : ℤ) + (d : ℤ) - 1)) =
        padGet X (Fin.castAdd 8 0) ((i : ℤ) + ((1 : Fin 3) : ℤ) - 1)
          ((j : ℤ) + ((1 : Fin 3) : ℤ) - 1) := by
      rw [Finset.sum_congr rfl (fun c' _ => Finset.sum_congr rfl
        (fun a _ => Finset.sum_congr rfl (fun d _ => hstep c' a d)))]
      simp only [Fin.sum_univ_three]
      simp +decide only [show ((0 : Fin 3) = 1) = False by decide,
        show ((2 : Fin 3) = 1) = False by decide,
        show ((1 : Fin 3) = 1) = True by decide, if_true, if_false,
        add_zero, zero_add]
      simp only [ite_self, add_zero, zero_add]
      rw [Finset.sum_ite_eq']
      simp only [Finset.mem_univ, if_true]
    rw [hsum]
    have hi : (i : ℤ) + ((1 : Fin 3) : ℤ) - 1 = ((i : ℕ) : ℤ) := by
      norm_num
    have hj : (j : ℤ) + ((1 : Fin 3) : ℤ) - 1 = ((j : ℕ) : ℤ) := by
      norm_num
    rw [hi, hj, padGet_fin]
    show _ + (0 : ℝ) = _
    ring
  · rw [if_neg hc]
    have hz : ∀ c' : Fin (8 + 8), ∀ a d : Fin 3,
        c4Gru.convHW c c' a d *
          padGet X c' ((i : ℤ) + (a : ℤ) - 1) ((j : ℤ) + (d : ℤ) - 1) = 0 := by
      intro c' a d
      show (if c = 0 ∧ c' = Fin.castAdd 8 0 ∧ a = 1 ∧ d = 1
        then (1 : ℝ) else 0) * _ = 0
      rw [if_neg (by tauto)]
      ring
    rw [Finset.sum_congr rfl (fun c' _ => Finset.sum_congr rfl
      (fun a _ => Finset.sum_congr rfl (fun d _ => hz c' a d)))]
    simp only [Finset.sum_const_zero, zero_add]
    rfl

lemma c4_gruHhat (x h : Ten 8 11 11) (c : Fin 8) (i j : Fin 11) :
    gruHhat c4Gru x h c i j =
      if c = 0 then Real.tanh (x 0 i j) else 0 := by
  unfold gruHhat
  rw [c4_convH, catCh_left]
  rw [apply_ite Real.tanh, Real.tanh_zero]

lemma c4_convGRU (x h : Ten 8 11 11) (c : Fin 8) (i j : Fin 11) :
    convGRU c4Gru x h c i j =
      (1 - 1 / 2) * h c i j +
        1 / 2 * (if c = 0 then Real.tanh (x 0 i j) else 0) := by
  unfold convGRU
  rw [c4_gruZ, c4_gruHhat]

lemma sum_scale8 (f : Fin 8 → ℝ) :
    (∑ x : Fin 8, 11 * (11 * f x)) = 121 * ∑ x : Fin 8, f x := by
  rw [Finset.mul_sum]
  apply Finset.sum_congr rfl
  intro x _
  ring

/-- The layer normalization of `GraphProcessor` (unit weight, zero
bias) restricted to channelwise-constant feature maps: the scalar
8-channel normalization it reduces to. -/
noncomputable def ln8 (u : Fin 8 → ℝ) : Fin 8 → ℝ :=
  fun c => (u c - (∑ k : Fin 8, u k) / 8) /
    Real.sqrt ((∑ k : Fin 8, (u k - (∑ k' : Fin 8, u k') / 8) ^ 2) / 8 + 1e-5)

lemma layerNorm_const8 (u : Fin 8 → ℝ) (c : Fin 8) (i j : Fin 11) :
    layerNorm ((fun _ _ _ => 1) : Ten 8 11 11) ((fun _ _ _ => 0) : Ten 8 11 11)
      (fun c' _ _ => u c') c i j = ln8 u c := by
  unfold layerNorm ln8
  have hsum : (∑ c' : Fin 8, ∑ _i : Fin 11, ∑ _j : Fin 11, u c') =
      121 * ∑ c' : Fin 8, u c' := by
    simp only [Finset.sum_const, Finset.card_univ, Fintype.card_fin,
      nsmul_eq_mul, Nat.cast_ofNat]
    exact sum_scale8 u
  have hn : ((8 : ℕ) : ℝ) * ((11 : ℕ) : ℝ) * ((11 : ℕ) : ℝ) = 968 := by
    norm_num
  have hμ : (∑ c' : Fin 8, ∑ _i : Fin 11, ∑ _j : Fin 11, u c') /
      (((8 : ℕ) : ℝ) * ((11 : ℕ) : ℝ) * ((11 : ℕ) : ℝ)) =
      (∑ k : Fin 8, u k) / 8 := by
    rw [hsum, hn]
    ring
  rw [hμ]
  have hsq : (∑ c' : Fin 8, ∑ _i : Fin 11, ∑ _j : Fin 11,
      (u c' - (∑ k : Fin 8, u k) / 8) ^ 2) =
      121 * ∑ c' : Fin 8, (u c' - (∑ k : Fin 8, u k) / 8) ^ 2 := by
    simp only [Finset.sum_const, Finset.card_univ, Fintype.card_fin,
      nsmul_eq_mul, Nat.cast_ofNat]
    exact sum_scale8 (fun k => (u k - (∑ k' : Fin 8, u k') / 8) ^ 2)
  have hv : (∑ c' : Fin 8, ∑ _i : Fin 11, ∑ _j : Fin 11,
      (u c' - (∑ k : Fin 8, u k) / 8) ^ 2) /
      (((8 : ℕ) : ℝ) * ((11 : ℕ) : ℝ) * ((11 : ℕ) : ℝ)) =
      (∑ k : Fin 8, (u k - (∑ k' : Fin 8, u k') / 8) ^ 2) / 8 := by
    rw [hsq, hn]
    ring
  rw [hv, mul_one, add_zero]

/-- Scalar form of the per-round node-0 state update at `c4Params` on
channelwise-constant states: fusion, ConvGRU with gates 1/2, residual,
8-channel layer normalization. -/
noncomputable def c4u (v : Fin 8 → ℝ) : Fin 8 → ℝ :=
  fun c =>
    (1 - 1 / 2) * v c +
      1 / 2 * (if c = 0 then
        Real.tanh (1 / 2 * v 0 + (1 - 1 / 2) * -(1 / 2)) else 0) + v c

/-- One round of node-0 evolution at `c4Params` in scalar form. -/
noncomputable def c4step (v : Fin 8 → ℝ) : Fin 8 → ℝ := ln8 (c4u v)

lemma c4_neighbors : gpNeighborFin 5 (0 : Fin 5) = [(1 : Fin 5)] := by
  decide

lemma c4_bridge (h : GPState 5 1 8 11 11) (v : Fin 8 → ℝ)
    (hv : h 0 0 = fun c _ _ => v c) :
    gpRound c4Params h 0 0 = fun c _ _ => c4step v c := by
  simp only [gpRound, gpNodeUpdate, convGRUB, gpCombined, c4_neighbors]
  have hcomb : gpCombined c4Params
      (fun b => intraAttention c4Params (h 0 b))
      (fun b => interAttention c4Params ((0 : Fin 5) : ℕ) (h 0 b)
        (List.map (fun j => (j.val, h j b)) [(1 : Fin 5)])) 0 =
      fun c _ _ => 1 / 2 * v c +
        (1 - 1 / 2) * (if c = 0 then -(1 / 2) else 0) := by
    funext c i j
    simp only [gpCombined]
    rw [intraAttention_id c4Params rfl rfl, hv]
    simp only [List.map_cons, List.map_nil]
    have h0 : ((0 : Fin 5) : ℕ) = 0 := rfl
    have h1 : ((1 : Fin 5) : ℕ) = 1 := rfl
    rw [h0, h1, c4_interAttention_node0]
    rfl
  rw [hcomb]
  have harg : (fun (c : Fin 8) (pi pj : Fin 11) =>
      convGRU c4Params.gru
        (fun c _ _ => 1 / 2 * v c +
          (1 - 1 / 2) * (if c = 0 then -(1 / 2) else 0)) (h 0 0) c pi pj +
        h 0 0 c pi pj) = fun c _ _ => c4u v c := by
    funext c pi pj
    show convGRU c4Gru _ _ c pi pj + h 0 0 c pi pj = c4u v c
    rw [c4_convGRU, hv]
    show (1 - 1 / 2) * v c +
        1 / 2 * (if c = 0 then Real.tanh (1 / 2 * v 0 +
          (1 - 1 / 2) * (if (0 : Fin 8) = 0 then -(1 / 2) else 0)) else 0) +
        v c = c4u v c
    rw [if_pos rfl]
    rfl
  rw [harg]
  funext c pi pj
  show layerNorm ((fun _ _ _ => 1) : Ten 8 11 11)
    ((fun _ _ _ => 0) : Ten 8 11 11) (fun c' _ _ => c4u v c') c pi pj =
    c4step v c
  rw [layerNorm_const8]
  rfl

/-- Sign invariant of the node-0 scalar evolution: channel 0
nonpositive, channels 1-7 equal and nonnegative. -/
def c4inv (v : Fin 8 → ℝ) : Prop :=
  v 0 ≤ 0 ∧ 0 ≤ v 1 ∧ ∀ c : Fin 8, c ≠ 0 → v c = v 1

lemma c4step_strict (v : Fin 8 → ℝ) (hinv : c4inv v) :
    c4step v 0 < 0 ∧ 0 < c4step v 1 ∧
      ∀ c : Fin 8, c ≠ 0 → c4step v c = c4step v 1 := by
  obtain ⟨h0, h1, heq⟩ := hinv
  have ht : Real.tanh (1 / 2 * v 0 + (1 - 1 / 2) * -(1 / 2)) < 0 := by
    apply tanh_neg_of_neg
    linarith
  have hu0 : c4u v 0 < 0 := by
    unfold c4u
    rw [if_pos rfl]
    linarith
  have hu1 : c4u v 1 = 3 / 2 * v 1 := by
    unfold c4u
    rw [if_neg (by decide : ¬(1 : Fin 8) = 0)]
    ring
  have huc : ∀ c : Fin 8, c ≠ 0 → c4u v c = c4u v 1 := by
    intro c hc
    unfold c4u
    rw [if_neg hc, if_neg (by decide : ¬(1 : Fin 8) = 0), heq c hc]
  have hu1pos : 0 ≤ c4u v 1 := by
    rw [hu1]
    linarith
  have hs : (∑ k : Fin 8, c4u v k) = c4u v 0 + 7 * c4u v 1 := by
    rw [Fin.sum_univ_eight]
    rw [huc 2 (by decide), huc 3 (by decide), huc 4 (by decide),
      huc 5 (by decide), huc 6 (by decide), huc 7 (by decide)]
    ring
  have hden : 0 < Real.sqrt
      ((∑ k : Fin 8, (c4u v k - (∑ k' : Fin 8, c4u v k') / 8) ^ 2) / 8 +
        1e-5) := by
    apply Real.sqrt_pos.mpr
    positivity
  refine ⟨?_, ?_, ?_⟩
  · show (c4u v 0 - (∑ k : Fin 8, c4u v k) / 8) / _ < 0
    apply div_neg_of_neg_of_pos _ hden
    rw [hs]
    linarith
  · show 0 < (c4u v 1 - (∑ k : Fin 8, c4u v k) / 8) / _
    apply div_pos _ hden
    rw [hs]
    linarith
  · intro c hc
    show (c4u v c - _) / _ = (c4u v 1 - _) / _
    rw [huc c hc]

lemma c4inv_zero : c4inv (fun _ => 0) :=
  ⟨le_refl 0, le_refl 0, fun _ _ => rfl⟩

lemma c4inv_of_strict {v : Fin 8 → ℝ}
    (h : c4step v 0 < 0 ∧ 0 < c4step v 1 ∧
      ∀ c : Fin 8, c ≠ 0 → c4step v c = c4step v 1) : c4inv (c4step v) :=
  ⟨le_of_lt h.1, le_of_lt h.2.1, h.2.2⟩

lemma c4_final_neg :
    c4step (c4step (c4step (fun _ => 0))) 0 < 0 := by
  have s1 := c4step_strict _ c4inv_zero
  have s2 := c4step_strict _ (c4inv_of_strict s1)
  have s3 := c4step_strict _ (c4inv_of_strict s2)
  exact s3.1

/-- C4 counterexample: with all learned biases zero but otherwise
admissible weights (`c4Params`), the all-zero `(5, 1, 8, 11, 11)` input
does *not* map to an all-zero output: the edge features inject the
constants `i - j` into the inter-frame messages, and after the three
rounds node 0's channel 0 is strictly negative. -/
theorem C4_zero_scenario_counterexample :
    BiasesZero c4Params ∧
    gpForward c4Params ((fun _ _ _ _ _ => 0) : GPState 5 1 8 11 11)
      0 0 0 0 0 ≠ 0 := by
  refine ⟨⟨rfl, rfl, rfl, rfl, rfl, rfl, rfl, rfl⟩, ?_⟩
  have e1 : gpRound c4Params ((fun _ _ _ _ _ => 0) : GPState 5 1 8 11 11)
      0 0 = fun c _ _ => c4step (fun _ => 0) c :=
    c4_bridge _ _ rfl
  have e2 : gpRound c4Params (gpRound c4Params
      ((fun _ _ _ _ _ => 0) : GPState 5 1 8 11 11)) 0 0 =
      fun c _ _ => c4step (c4step (fun _ => 0)) c :=
    c4_bridge _ _ e1
  have e3 : gpRound c4Params (gpRound c4Params (gpRound c4Params
      ((fun _ _ _ _ _ => 0) : GPState 5 1 8 11 11))) 0 0 =
      fun c _ _ => c4step (c4step (c4step (fun _ => 0))) c :=
    c4_bridge _ _ e2
  have hfw : gpForward c4Params
      ((fun _ _ _ _ _ => 0) : GPState 5 1 8 11 11) =
      gpRound c4Params (gpRound c4Params (gpRound c4Params
        ((fun _ _ _ _ _ => 0) : GPState 5 1 8 11 11))) := by
    show gpForwardN c4Params c4Params.nIterations _ = _
    show gpForwardN c4Params 3 _ = _
    rw [gpForwardN, gpForwardN, gpForwardN, gpForwardN]
  rw [hfw]
  have happ : gpRound c4Params (gpRound c4Params (gpRound c4Params
      ((fun _ _ _ _ _ => 0) : GPState 5 1 8 11 11))) 0 0 0 0 0 =
      c4step (c4step (c4step (fun _ => 0))) 0 := by
    rw [e3]
  rw [happ]
  exact ne_of_lt c4_final_neg

end C4Counter

end ClaimC4

end LiveSALSpec
